import Mathlib

/-!
Verification of the GSQR embedding-training pipeline
(`src/pytorch/train_embedding.py`) against its design specification.

The Python source is shallowly embedded below.  Exact rational arithmetic
(`ℚ`) stands in for the script's floating-point arithmetic; comparisons that
the script makes on a Euclidean norm (`np.linalg.norm(...) < 250`) are
embedded as the equivalent comparison on the squared norm, and theorem
statements relate them back through `Real.sqrt`.  Quantities whose exact
value is a transcendental function of the inputs (standard deviations,
per-epoch loss values, post-training parameters, `np.random` draws) are
passed in as explicit parameters, constrained by hypotheses where a claim
depends on them.
-/

/-! ## Network generator (`generate_uav_network`, lines 32-70) -/

/-- A 3-D node position, as sampled by
`np.random.rand(num_nodes, 3) * [area_size, area_size, 150]`. -/
structure Pos3 where
  x : ℚ
  y : ℚ
  z : ℚ
deriving DecidableEq

/-- Squared Euclidean distance between two positions.  The script compares
`np.linalg.norm(positions[i] - positions[j]) < 250`; since both sides are
nonnegative this is equivalent to comparing the squared norm with `250 ^ 2`,
which keeps the embedding inside `ℚ`. -/
def dist2 (p q : Pos3) : ℚ :=
  (p.x - q.x) ^ 2 + (p.y - q.y) ^ 2 + (p.z - q.z) ^ 2

/-- Communication range: 250 meters (line 41). -/
def communicationRange : ℚ := 250

/-- The adjacency matrix built by the double loop of lines 43-48: starting
from zeros, for every `i < j` with `dist < communication_range` both
`adjacency[i][j]` and `adjacency[j][i]` are set to 1.  `adjacencyOf ps i j`
is the final value of entry `(i, j)`. -/
def adjacencyOf (ps : List Pos3) (i j : ℕ) : Bool :=
  (decide (i < j) && decide (dist2 (ps.getD i ⟨0, 0, 0⟩) (ps.getD j ⟨0, 0, 0⟩) < communicationRange ^ 2))
    || (decide (j < i) && decide (dist2 (ps.getD j ⟨0, 0, 0⟩) (ps.getD i ⟨0, 0, 0⟩) < communicationRange ^ 2))

lemma dist2_comm (p q : Pos3) : dist2 p q = dist2 q p := by
  unfold dist2; ring

lemma dist2_nonneg (p q : Pos3) : 0 ≤ dist2 p q := by
  unfold dist2; positivity

/-- Claim C4: for every generated graph (any node count and area size), the
adjacency relation is symmetric and irreflexive, and an edge is present
between distinct nodes `i` and `j` iff the Euclidean distance between their
3-D positions is strictly less than the communication range 250. -/
theorem adjacency_symm_irrefl_range (ps : List Pos3) (i j : ℕ) (hij : i ≠ j) :
    adjacencyOf ps i j = adjacencyOf ps j i
      ∧ adjacencyOf ps i i = false
      ∧ (adjacencyOf ps i j = true ↔
          Real.sqrt ((dist2 (ps.getD i ⟨0, 0, 0⟩) (ps.getD j ⟨0, 0, 0⟩) : ℚ) : ℝ) < 250) := by
  refine ⟨?_, ?_, ?_⟩
  · unfold adjacencyOf
    rw [dist2_comm (ps.getD i ⟨0, 0, 0⟩) (ps.getD j ⟨0, 0, 0⟩)]
    exact Bool.or_comm _ _
  · simp [adjacencyOf]
  · have hd : (0 : ℚ) ≤ dist2 (ps.getD i ⟨0, 0, 0⟩) (ps.getD j ⟨0, 0, 0⟩) := dist2_nonneg _ _
    have hsqrt : Real.sqrt ((dist2 (ps.getD i ⟨0, 0, 0⟩) (ps.getD j ⟨0, 0, 0⟩) : ℚ) : ℝ) < 250
        ↔ (dist2 (ps.getD i ⟨0, 0, 0⟩) (ps.getD j ⟨0, 0, 0⟩) : ℚ) < communicationRange ^ 2 := by
      rw [Real.sqrt_lt' (by norm_num : (0 : ℝ) < 250)]
      rw [show ((dist2 (ps.getD i ⟨0, 0, 0⟩) (ps.getD j ⟨0, 0, 0⟩) : ℚ) < communicationRange ^ 2)
            ↔ (((dist2 (ps.getD i ⟨0, 0, 0⟩) (ps.getD j ⟨0, 0, 0⟩) : ℚ) : ℝ) < ((communicationRange ^ 2 : ℚ) : ℝ)) from by
        exact_mod_cast Iff.rfl]
      have : ((communicationRange ^ 2 : ℚ) : ℝ) = (250 : ℝ) ^ 2 := by
        norm_num [communicationRange]
      rw [this]
    rw [hsqrt]
    rcases Nat.lt_or_ge i j with hlt | hge
    · simp [adjacencyOf, hlt, Nat.lt_asymm hlt]
    · have hlt : j < i := lt_of_le_of_ne hge (fun h => hij h.symm)
      simp only [adjacencyOf, hlt, Nat.lt_asymm hlt]
      rw [dist2_comm (ps.getD j ⟨0, 0, 0⟩) (ps.getD i ⟨0, 0, 0⟩)]
      simp

/-- Concrete positions for the C4 witness: nodes 0 and 1 are 100 m apart. -/
def witnessPositions : List Pos3 := [⟨0, 0, 0⟩, ⟨100, 0, 0⟩]

theorem adjacency_symm_irrefl_range_witness :
    (0 : ℕ) ≠ 1
      ∧ (adjacencyOf witnessPositions 0 1 = adjacencyOf witnessPositions 1 0
          ∧ adjacencyOf witnessPositions 0 0 = false
          ∧ (adjacencyOf witnessPositions 0 1 = true ↔
              Real.sqrt ((dist2 (witnessPositions.getD 0 ⟨0, 0, 0⟩) (witnessPositions.getD 1 ⟨0, 0, 0⟩) : ℚ) : ℝ) < 250)) :=
  ⟨by decide, adjacency_symm_irrefl_range witnessPositions 0 1 (by decide)⟩

/-! ## Feature normalizer (`StandardScaler().fit_transform`, lines 100-103)

`sklearn.preprocessing.StandardScaler` standardizes each column of the
feature matrix to `(x - mean) / scale`, where `mean` is the column mean,
`std` is the population standard deviation (`sqrt` of the biased variance),
and `scale` is `std` with zeros replaced by 1 (sklearn's
`_handle_zeros_in_scale` variance floor).  The standard deviation is an
irrational square root in general, so it enters the embedding as a
parameter `σ` constrained by `σ ≥ 0` and `σ ^ 2 = colVar xs`. -/

/-- Column mean, `x.mean(axis=0)` for one column. -/
def colMean (xs : List ℚ) : ℚ := xs.sum / (xs.length : ℚ)

/-- Population (biased) variance of a column, as used by `StandardScaler`. -/
def colVar (xs : List ℚ) : ℚ :=
  ((xs.map (fun v => (v - colMean xs) ^ 2)).sum) / (xs.length : ℚ)

/-- sklearn's `_handle_zeros_in_scale`: a scale of exactly 0 is replaced by
1 so that a zero-variance column is not divided by zero. -/
def scaleOf (σ : ℚ) : ℚ := if σ = 0 then 1 else σ

/-- One column of `StandardScaler().fit_transform`: `(x - mean) / scale`. -/
def standardizeCol (xs : List ℚ) (σ : ℚ) : List ℚ :=
  xs.map (fun v => (v - colMean xs) / scaleOf σ)

lemma sum_map_sub_div (xs : List ℚ) (μ c : ℚ) :
    (xs.map (fun v => (v - μ) / c)).sum = (xs.sum - (xs.length : ℚ) * μ) / c := by
  induction xs with
  | nil => simp
  | cons x xs ih =>
    simp only [List.map_cons, List.sum_cons, List.length_cons, ih]
    push_cast
    by_cases hc : c = 0
    · simp [hc]
    · field_simp
      ring

lemma sum_map_div (xs : List ℚ) (f : ℚ → ℚ) (c : ℚ) :
    (xs.map (fun v => f v / c)).sum = (xs.map f).sum / c := by
  induction xs with
  | nil => simp
  | cons x xs ih =>
    simp only [List.map_cons, List.sum_cons, ih]
    by_cases hc : c = 0
    · simp [hc]
    · field_simp

lemma sum_nonneg_all_zero {l : List ℚ} (h0 : ∀ x ∈ l, 0 ≤ x) (hs : l.sum = 0) :
    ∀ x ∈ l, x = 0 := by
  induction l with
  | nil => simp
  | cons a l ih =>
    have ha : 0 ≤ a := h0 a (List.mem_cons_self a l)
    have hl : 0 ≤ l.sum := List.sum_nonneg (fun x hx => h0 x (List.mem_cons_of_mem a hx))
    have hsum : a + l.sum = 0 := by simpa using hs
    have ha0 : a = 0 := le_antisymm (by linarith) ha
    have hl0 : l.sum = 0 := by linarith
    intro x hx
    rcases List.mem_cons.1 hx with rfl | hx
    · exact ha0
    · exact ih (fun y hy => h0 y (List.mem_cons_of_mem a hy)) hl0 x hx

lemma colMean_standardized (xs : List ℚ) (σ : ℚ) (hne : xs ≠ []) :
    colMean (standardizeCol xs σ) = 0 := by
  have hn : (xs.length : ℚ) ≠ 0 := by
    simpa using fun h => hne (List.length_eq_zero.1 h)
  unfold colMean standardizeCol
  rw [sum_map_sub_div, List.length_map]
  have hsum : xs.sum - (xs.length : ℚ) * colMean xs = 0 := by
    unfold colMean
    field_simp
  rw [hsum, zero_div, zero_div]

/-- Claim C5: the Normalizer returns `(x - mean) / std` per column; a column
with nonzero variance is standardized to exact mean 0 and variance 1 (hence
standard deviation 1), and a zero-variance column is not divided by zero:
the scale is floored to 1 and the output column is all zeros. -/
theorem standardizeCol_mean_var (xs : List ℚ) (σ : ℚ) (hne : xs ≠ [])
    (hσ : 0 ≤ σ) (hv : σ ^ 2 = colVar xs) :
    (colVar xs ≠ 0 →
        colMean (standardizeCol xs σ) = 0 ∧ colVar (standardizeCol xs σ) = 1)
      ∧ (colVar xs = 0 → standardizeCol xs σ = xs.map (fun _ => (0 : ℚ))) := by
  have hn : (xs.length : ℚ) ≠ 0 := by
    simpa using fun h => hne (List.length_eq_zero.1 h)
  constructor
  · intro hvar
    have hσne : σ ≠ 0 := by
      intro h
      rw [h] at hv
      exact hvar (by simpa using hv.symm)
    have hscale : scaleOf σ = σ := by simp [scaleOf, hσne]
    have hmean := colMean_standardized xs σ hne
    refine ⟨hmean, ?_⟩
    unfold colVar
    rw [hmean]
    have hlen : ((standardizeCol xs σ).length : ℚ) = (xs.length : ℚ) := by
      simp [standardizeCol]
    rw [hlen]
    have hmap : (standardizeCol xs σ).map (fun v => (v - 0) ^ 2)
        = xs.map (fun v => ((v - colMean xs) ^ 2) / σ ^ 2) := by
      unfold standardizeCol
      rw [List.map_map]
      apply List.map_congr_left
      intro a _
      simp only [Function.comp_apply, hscale, sub_zero]
      rw [div_pow]
    rw [hmap, sum_map_div]
    have : (xs.map (fun v => (v - colMean xs) ^ 2)).sum = colVar xs * (xs.length : ℚ) := by
      unfold colVar
      field_simp
    rw [this, hv]
    field_simp
  · intro hvar
    have hall : ∀ v ∈ xs, v = colMean xs := by
      have hsum0 : (xs.map (fun v => (v - colMean xs) ^ 2)).sum = 0 := by
        unfold colVar at hvar
        rcases div_eq_zero_iff.1 hvar with h | h
        · exact h
        · exact absurd h hn
      intro v hv'
      have := sum_nonneg_all_zero (l := xs.map (fun v => (v - colMean xs) ^ 2))
        (by
          intro x hx
          rcases List.mem_map.1 hx with ⟨a, _, rfl⟩
          positivity)
        hsum0 ((v - colMean xs) ^ 2) (List.mem_map_of_mem _ hv')
      have := pow_eq_zero_iff (n := 2) (by norm_num) |>.1 this
      linarith [sub_eq_zero.1 this]
    unfold standardizeCol
    apply List.map_congr_left
    intro a ha
    rw [hall a ha]
    simp

theorem standardizeCol_mean_var_witness :
    ([(1 : ℚ), 3] ≠ [] ∧ (0 : ℚ) ≤ 1 ∧ (1 : ℚ) ^ 2 = colVar [(1 : ℚ), 3])
      ∧ ((colVar [(1 : ℚ), 3] ≠ 0 →
            colMean (standardizeCol [(1 : ℚ), 3] 1) = 0
              ∧ colVar (standardizeCol [(1 : ℚ), 3] 1) = 1)
          ∧ (colVar [(1 : ℚ), 3] = 0 →
              standardizeCol [(1 : ℚ), 3] 1 = [(1 : ℚ), 3].map (fun _ => (0 : ℚ)))) :=
  ⟨⟨by simp, by norm_num, by norm_num [colVar, colMean]⟩,
    standardizeCol_mean_var [(1 : ℚ), 3] 1 (by simp) (by norm_num)
      (by norm_num [colVar, colMean])⟩

/-! ## The contrastive loss expression (lines 158-159)

The script computes

  loss = -torch.log(torch.sigmoid(pos_similarity)).mean()
         - torch.log(1 - torch.sigmoid(neg_similarity)).mean()

`TensorExpr` is the vocabulary of tensor operations available at that point
in the script (PyTorch elementwise ops); it includes the fused,
numerically stable `F.logsigmoid` primitive that a stable implementation
would use.  `lossExpr` below is the exact expression the script builds. -/

/-- Elementwise tensor-expression vocabulary for the loss computation.
`posSim` / `negSim` are the similarity tensors of lines 145-154;
`logsigmoid` is PyTorch's fused stable log-sigmoid primitive. -/
inductive TensorExpr where
  | posSim : TensorExpr
  | negSim : TensorExpr
  | const : ℚ → TensorExpr
  | sigmoid : TensorExpr → TensorExpr
  | log : TensorExpr → TensorExpr
  | logsigmoid : TensorExpr → TensorExpr
  | sub : TensorExpr → TensorExpr → TensorExpr
  | neg : TensorExpr → TensorExpr
  | mean : TensorExpr → TensorExpr
deriving DecidableEq

/-- The loss expression built at lines 158-159, transcribed operator by
operator: `(-log(sigmoid(pos)).mean()) - (log(1 - sigmoid(neg)).mean())`. -/
def lossExpr : TensorExpr :=
  TensorExpr.sub
    (TensorExpr.neg (TensorExpr.mean (TensorExpr.log (TensorExpr.sigmoid TensorExpr.posSim))))
    (TensorExpr.mean (TensorExpr.log (TensorExpr.sub (TensorExpr.const 1) (TensorExpr.sigmoid TensorExpr.negSim))))

/-- An expression contains a naive composition of `log` with `sigmoid`
(either `log(sigmoid(e))` or `log(c - sigmoid(e))`), the pattern that
underflows in floating point for large-magnitude similarities
(`sigmoid` rounds to 0 or 1 and `log` produces `-inf`). -/
def containsNaiveLogSigmoid : TensorExpr → Bool
  | TensorExpr.log (TensorExpr.sigmoid _) => true
  | TensorExpr.log (TensorExpr.sub (TensorExpr.const _) (TensorExpr.sigmoid _)) => true
  | TensorExpr.log e => containsNaiveLogSigmoid e
  | TensorExpr.sigmoid e => containsNaiveLogSigmoid e
  | TensorExpr.logsigmoid e => containsNaiveLogSigmoid e
  | TensorExpr.neg e => containsNaiveLogSigmoid e
  | TensorExpr.mean e => containsNaiveLogSigmoid e
  | TensorExpr.sub a b => containsNaiveLogSigmoid a || containsNaiveLogSigmoid b
  | TensorExpr.posSim => false
  | TensorExpr.negSim => false
  | TensorExpr.const _ => false

/-- An expression uses the fused stable `logsigmoid` primitive somewhere. -/
def usesFusedLogSigmoid : TensorExpr → Bool
  | TensorExpr.logsigmoid _ => true
  | TensorExpr.log e => usesFusedLogSigmoid e
  | TensorExpr.sigmoid e => usesFusedLogSigmoid e
  | TensorExpr.neg e => usesFusedLogSigmoid e
  | TensorExpr.mean e => usesFusedLogSigmoid e
  | TensorExpr.sub a b => usesFusedLogSigmoid a || usesFusedLogSigmoid b
  | TensorExpr.posSim => false
  | TensorExpr.negSim => false
  | TensorExpr.const _ => false

/-- Claim C2 (refuting evidence): both log-sigmoid terms of the loss are the
naive composition `log ∘ sigmoid` (resp. `log(1 - sigmoid(·))`), and the
fused stable log-sigmoid identity appears nowhere in the expression — the
code does exactly what the claim says it avoids. -/
theorem lossExpr_is_naive_logsigmoid :
    containsNaiveLogSigmoid lossExpr = true ∧ usesFusedLogSigmoid lossExpr = false := by
  constructor
  · rfl
  · rfl

/-! ## Negative sampling (lines 130-142)

The script draws `num_pos` negative pairs by rejection sampling:

    neg_samples = []
    while len(neg_samples) < num_pos:
        i = np.random.randint(0, num_nodes)
        j = np.random.randint(0, num_nodes)
        if i != j and adjacency[i][j] == 0:
            neg_samples.append([i, j])

The stream of `(i, j)` draws produced by `np.random.randint` is embedded as
an explicit list; `negSample` consumes it until either enough pairs are
accepted (`some` — the loop exits) or the stream is exhausted (`none` — the
real loop is still running after that many draws).  The loop has no retry
cap and no failure path, so "`none` for every finite draw stream" is
exactly "the loop never terminates". -/

/-- One run of the rejection-sampling loop: `acc` is `neg_samples` (in
reverse order of acceptance), the second list is the remaining random
draws. -/
def negSampleAux (adj : ℕ → ℕ → Bool) (numPos : ℕ) :
    List (ℕ × ℕ) → List (ℕ × ℕ) → Option (List (ℕ × ℕ))
  | acc, [] => if numPos ≤ acc.length then some acc.reverse else none
  | acc, (i, j) :: rest =>
    if numPos ≤ acc.length then some acc.reverse
    else if i ≠ j ∧ adj i j = false then negSampleAux adj numPos ((i, j) :: acc) rest
    else negSampleAux adj numPos acc rest

/-- The negative-sampling loop of lines 135-140, starting from the empty
`neg_samples` list. -/
def negSample (adj : ℕ → ℕ → Bool) (numPos : ℕ) (draws : List (ℕ × ℕ)) :
    Option (List (ℕ × ℕ)) :=
  negSampleAux adj numPos [] draws

/-- The directed edge list built at lines 86-90: `[i, j]` for every matrix
entry `adjacency[i][j] == 1`, outer loop `i`, inner loop `j`. -/
def directedEdges (adj : ℕ → ℕ → Bool) (n : ℕ) : List (ℕ × ℕ) :=
  (List.range n).flatMap
    (fun i => ((List.range n).filter (fun j => adj i j)).map (fun j => (i, j)))

lemma negSampleAux_sound (adj : ℕ → ℕ → Bool) (numPos : ℕ) :
    ∀ (draws acc l : List (ℕ × ℕ)),
      (∀ p ∈ acc, p.1 ≠ p.2 ∧ adj p.1 p.2 = false) → acc.length ≤ numPos →
      negSampleAux adj numPos acc draws = some l →
      l.length = numPos ∧ ∀ p ∈ l, p.1 ≠ p.2 ∧ adj p.1 p.2 = false := by
  intro draws
  induction draws with
  | nil =>
    intro acc l hacc hlen h
    unfold negSampleAux at h
    by_cases hfull : numPos ≤ acc.length
    · rw [if_pos hfull] at h
      have hl : l = acc.reverse := by
        injection h with h
        exact h.symm
      subst hl
      refine ⟨by simpa using le_antisymm hlen hfull, ?_⟩
      intro p hp
      exact hacc p (List.mem_reverse.1 hp)
    · rw [if_neg hfull] at h
      exact absurd h (by simp)
  | cons d rest ih =>
    intro acc l hacc hlen h
    obtain ⟨i, j⟩ := d
    unfold negSampleAux at h
    by_cases hfull : numPos ≤ acc.length
    · rw [if_pos hfull] at h
      have hl : l = acc.reverse := by
        injection h with h
        exact h.symm
      subst hl
      refine ⟨by simpa using le_antisymm hlen hfull, ?_⟩
      intro p hp
      exact hacc p (List.mem_reverse.1 hp)
    · rw [if_neg hfull] at h
      by_cases hcond : i ≠ j ∧ adj i j = false
      · rw [if_pos hcond] at h
        refine ih ((i, j) :: acc) l ?_ ?_ h
        · intro p hp
          rcases List.mem_cons.1 hp with rfl | hp
          · exact hcond
          · exact hacc p hp
        · have : acc.length < numPos := lt_of_not_ge hfull
          simpa using this
      · rw [if_neg hcond] at h
        exact ih acc l hacc hlen h

/-- Claim C3: whenever the rejection-sampling loop of an epoch terminates
(with `P` = the directed edge count, as on line 131), it has produced
exactly `P` pairs, and every produced pair `(i, j)` satisfies `i ≠ j` and
is not an edge of the graph.  (Pairs are drawn with replacement: nothing
prevents duplicates, and the theorem requires no distinctness.) -/
theorem negSample_exact_count_and_valid (adj : ℕ → ℕ → Bool) (numNodes : ℕ)
    (draws l : List (ℕ × ℕ))
    (h : negSample adj (directedEdges adj numNodes).length draws = some l) :
    l.length = (directedEdges adj numNodes).length
      ∧ ∀ p ∈ l, p.1 ≠ p.2 ∧ adj p.1 p.2 = false :=
  negSampleAux_sound adj (directedEdges adj numNodes).length draws [] l
    (by simp) (Nat.zero_le _) h

/-- The 3-node path graph 0 - 1 - 2 (stored directed-symmetric, as the
script's adjacency matrix is). -/
def adjPath (i j : ℕ) : Bool :=
  [(0, 1), (1, 0), (1, 2), (2, 1)].contains (i, j)

theorem negSample_exact_count_and_valid_witness :
    negSample adjPath (directedEdges adjPath 3).length
        [(0, 2), (2, 0), (0, 2), (2, 0)] = some [(0, 2), (2, 0), (0, 2), (2, 0)]
      ∧ ([(0, 2), (2, 0), (0, 2), (2, 0)] : List (ℕ × ℕ)).length
            = (directedEdges adjPath 3).length
      ∧ ∀ p ∈ ([(0, 2), (2, 0), (0, 2), (2, 0)] : List (ℕ × ℕ)),
          p.1 ≠ p.2 ∧ adjPath p.1 p.2 = false :=
  ⟨by decide,
    negSample_exact_count_and_valid adjPath 3 [(0, 2), (2, 0), (0, 2), (2, 0)]
      [(0, 2), (2, 0), (0, 2), (2, 0)] (by decide)⟩

/-! ## The encoder (`class GraphSAGE`, lines 18-30)

`forward` is `conv2(dropout(relu(conv1(x, edge_index)), p=0.2,
training=self.training), edge_index)` with `conv1 = SAGEConv(3, 32)` and
`conv2 = SAGEConv(32, 16)`.

PyTorch Geometric's `SAGEConv` with default mean aggregation computes, per
node `i`, `lin_l(mean of neighbor features) + lin_r(x_i)` where `lin_l`
carries the bias; a node with no neighbors receives the zero vector from
the mean aggregation.  Dropout zeroes each activation independently with
probability 0.2 during training, scaling survivors by `1 / (1 - 0.2)`, and
is the identity in evaluation mode; the Bernoulli coin flips are embedded
as an explicit mask oracle `ℕ → ℕ → Bool` (node index, channel index). -/

/-- Elementwise product-sum of two equally long vectors. -/
def dot (a b : List ℚ) : ℚ := (List.zipWith (· * ·) a b).sum

/-- Matrix-vector product, one output entry per weight row. -/
def matVec (w : List (List ℚ)) (v : List ℚ) : List ℚ := w.map (fun r => dot r v)

/-- Elementwise vector sum (the result has the length of the first
argument; all tensors the script adds have equal shapes). -/
def vecAdd : List ℚ → List ℚ → List ℚ
  | [], _ => []
  | x :: xs, ys => (x + ys.headD 0) :: vecAdd xs ys.tail

/-- The all-zero vector. -/
def zeros (n : ℕ) : List ℚ := List.replicate n 0

/-- The neighbor list of node `i`: all `j` with `adjacency[i][j] == 1`
(the adjacency matrix is symmetric, so source and target neighborhoods
coincide). -/
def neighborsOf (adj : ℕ → ℕ → Bool) (n i : ℕ) : List ℕ :=
  (List.range n).filter (fun j => adj i j)

/-- Mean aggregation over the neighbors of node `i`; the zero vector when
`i` has no neighbors (PyG scatter-mean over an empty index set). -/
def meanAgg (adj : ℕ → ℕ → Bool) (x : List (List ℚ)) (dim i : ℕ) : List ℚ :=
  let nb := neighborsOf adj x.length i
  if nb.length = 0 then zeros dim
  else (nb.foldl (fun acc j => vecAdd acc (x.getD j (zeros dim))) (zeros dim)).map
    (fun v => v / (nb.length : ℚ))

/-- Parameters of one `SAGEConv` layer: `lin_l` (applied to the aggregated
neighborhood, with bias) and `lin_r` (applied to the node's own features). -/
structure SAGEConvP where
  wNbr : List (List ℚ)
  wRoot : List (List ℚ)
  bias : List ℚ
deriving DecidableEq

/-- One `SAGEConv` output row:
`lin_l(mean of neighbors) + lin_r(x_i) + bias`. -/
def sageConvNode (p : SAGEConvP) (adj : ℕ → ℕ → Bool) (x : List (List ℚ))
    (dim i : ℕ) : List ℚ :=
  vecAdd (vecAdd (matVec p.wNbr (meanAgg adj x dim i)) (matVec p.wRoot (x.getD i (zeros dim)))) p.bias

/-- A full `SAGEConv` layer applied to every node. -/
def sageConv (p : SAGEConvP) (adj : ℕ → ℕ → Bool) (x : List (List ℚ))
    (dim : ℕ) : List (List ℚ) :=
  (List.range x.length).map (sageConvNode p adj x dim)

/-- `F.relu`, elementwise on one activation. -/
def relu (v : ℚ) : ℚ := max v 0

/-- The dropout probability of line 28: `p=0.2`. -/
def dropoutP : ℚ := 2 / 10

/-- Training-mode dropout over one row, channel index `k` running from the
given offset: a masked activation becomes 0, a surviving activation is
rescaled by `1 / (1 - p)`. -/
def dropoutRowT (p : ℚ) (mask : ℕ → Bool) : ℕ → List ℚ → List ℚ
  | _, [] => []
  | k, v :: rest => (if mask k then 0 else v / (1 - p)) :: dropoutRowT p mask (k + 1) rest

/-- `F.dropout(row, p, training)`: identity in evaluation mode, masked
rescaling in training mode. -/
def dropoutRow (p : ℚ) (training : Bool) (mask : ℕ → Bool) (v : List ℚ) : List ℚ :=
  match training with
  | false => v
  | true => dropoutRowT p mask 0 v

/-- Dropout applied to every row of the hidden activation matrix (`mask i`
is the coin-flip row of node `i`). -/
def dropoutStage (p : ℚ) (training : Bool) (mask : ℕ → ℕ → Bool) :
    ℕ → List (List ℚ) → List (List ℚ)
  | _, [] => []
  | i, row :: rest => dropoutRow p training (mask i) row :: dropoutStage p training mask (i + 1) rest

/-- The two-layer model of lines 18-23: `conv1 = SAGEConv(3, 32)`,
`conv2 = SAGEConv(32, 16)`. -/
structure GraphSAGE where
  conv1 : SAGEConvP
  conv2 : SAGEConvP
deriving DecidableEq

/-- `GraphSAGE.forward` (lines 25-30): conv1, relu, dropout(p=0.2,
training), conv2 — with no activation after conv2. -/
def GraphSAGE.forward (m : GraphSAGE) (training : Bool) (mask : ℕ → ℕ → Bool)
    (adj : ℕ → ℕ → Bool) (x : List (List ℚ)) : List (List ℚ) :=
  sageConv m.conv2 adj
    (dropoutStage dropoutP training mask 0
      ((sageConv m.conv1 adj x 3).map (fun row => row.map relu))) 32

/-- Expected value of dropout on one activation `x`: masked with
probability `p` (contributing 0), surviving with probability `1 - p`
(contributing `x / (1 - p)`). -/
def dropoutExpect (p x : ℚ) : ℚ := p * 0 + (1 - p) * (x / (1 - p))

lemma vecAdd_length (a b : List ℚ) : (vecAdd a b).length = a.length := by
  induction a generalizing b with
  | nil => rfl
  | cons x xs ih => simp [vecAdd, ih]

lemma matVec_length (w : List (List ℚ)) (v : List ℚ) :
    (matVec w v).length = w.length := by
  simp [matVec]

lemma sageConvNode_length (p : SAGEConvP) (adj : ℕ → ℕ → Bool)
    (x : List (List ℚ)) (dim i : ℕ) :
    (sageConvNode p adj x dim i).length = p.wNbr.length := by
  simp [sageConvNode, vecAdd_length, matVec_length]

lemma sageConv_length (p : SAGEConvP) (adj : ℕ → ℕ → Bool)
    (x : List (List ℚ)) (dim : ℕ) :
    (sageConv p adj x dim).length = x.length := by
  simp [sageConv]

lemma sageConv_row_length (p : SAGEConvP) (adj : ℕ → ℕ → Bool)
    (x : List (List ℚ)) (dim : ℕ) :
    ∀ row ∈ sageConv p adj x dim, row.length = p.wNbr.length := by
  intro row hrow
  rcases List.mem_map.1 hrow with ⟨i, _, rfl⟩
  exact sageConvNode_length p adj x dim i

lemma dropoutStage_length (p : ℚ) (training : Bool) (mask : ℕ → ℕ → Bool) :
    ∀ (i : ℕ) (rows : List (List ℚ)),
      (dropoutStage p training mask i rows).length = rows.length := by
  intro i rows
  induction rows generalizing i with
  | nil => rfl
  | cons row rest ih => simp [dropoutStage, ih]

lemma dropoutStage_eval (p : ℚ) (mask : ℕ → ℕ → Bool) :
    ∀ (i : ℕ) (rows : List (List ℚ)), dropoutStage p false mask i rows = rows := by
  intro i rows
  induction rows generalizing i with
  | nil => rfl
  | cons row rest ih => simp [dropoutStage, dropoutRow, ih]

lemma forward_length (m : GraphSAGE) (training : Bool) (mask : ℕ → ℕ → Bool)
    (adj : ℕ → ℕ → Bool) (x : List (List ℚ)) :
    (GraphSAGE.forward m training mask adj x).length = x.length := by
  unfold GraphSAGE.forward
  rw [sageConv_length, dropoutStage_length, List.length_map, sageConv_length]

lemma forward_row_length (m : GraphSAGE) (training : Bool) (mask : ℕ → ℕ → Bool)
    (adj : ℕ → ℕ → Bool) (x : List (List ℚ)) :
    ∀ row ∈ GraphSAGE.forward m training mask adj x, row.length = m.conv2.wNbr.length := by
  unfold GraphSAGE.forward
  exact sageConv_row_length m.conv2 adj _ 32

lemma dropoutRowT_getD (p : ℚ) (mask : ℕ → Bool) :
    ∀ (v : List ℚ) (k0 k : ℕ), k < v.length →
      (dropoutRowT p mask k0 v).getD k 0
        = if mask (k0 + k) then 0 else v.getD k 0 / (1 - p) := by
  intro v
  induction v with
  | nil => intro k0 k h; simp at h
  | cons a rest ih =>
    intro k0 k h
    cases k with
    | zero => simp [dropoutRowT]
    | succ k =>
      have hk : k < rest.length := by simpa using h
      simp only [dropoutRowT, List.getD_cons_succ]
      rw [ih (k0 + 1) k hk]
      have : k0 + 1 + k = k0 + (k + 1) := by omega
      rw [this]

/-- Claim C6: the forward pass applies, in order, conv1 (3 → 32 aggregate
then transform), elementwise ReLU, dropout with p = 0.2 in training mode
only, and conv2 (32 → 16) with no activation on the output.  In evaluation
mode dropout is the identity; in training mode each surviving activation is
rescaled by `1 / (1 - 0.2) = 5/4`, which preserves the expected magnitude
of every activation. -/
theorem forward_pipeline (m : GraphSAGE) (adj : ℕ → ℕ → Bool)
    (mask : ℕ → ℕ → Bool) (x : List (List ℚ))
    (h1 : m.conv1.wNbr.length = 32) (h2 : m.conv2.wNbr.length = 16) :
    GraphSAGE.forward m false mask adj x
        = sageConv m.conv2 adj ((sageConv m.conv1 adj x 3).map (fun row => row.map relu)) 32
      ∧ GraphSAGE.forward m true mask adj x
          = sageConv m.conv2 adj
              (dropoutStage dropoutP true mask 0
                ((sageConv m.conv1 adj x 3).map (fun row => row.map relu))) 32
      ∧ (∀ row ∈ sageConv m.conv1 adj x 3, row.length = 32)
      ∧ (∀ row ∈ GraphSAGE.forward m true mask adj x, row.length = 16)
      ∧ (∀ (msk : ℕ → Bool) (v : List ℚ), dropoutRow dropoutP false msk v = v)
      ∧ (∀ (msk : ℕ → Bool) (v : List ℚ) (k : ℕ), k < v.length →
          (dropoutRow dropoutP true msk v).getD k 0
            = if msk k then 0 else v.getD k 0 * (5 / 4))
      ∧ (∀ a : ℚ, dropoutExpect dropoutP a = a) := by
  refine ⟨?_, rfl, ?_, ?_, ?_, ?_, ?_⟩
  · unfold GraphSAGE.forward
    rw [dropoutStage_eval]
  · intro row hrow
    rw [sageConv_row_length m.conv1 adj x 3 row hrow, h1]
  · intro row hrow
    rw [forward_row_length m true mask adj x row hrow, h2]
  · intro msk v
    rfl
  · intro msk v k hk
    show (dropoutRowT dropoutP msk 0 v).getD k 0 = _
    rw [dropoutRowT_getD dropoutP msk v 0 k hk]
    have : v.getD k 0 / (1 - dropoutP) = v.getD k 0 * (5 / 4) := by
      unfold dropoutP
      norm_num
      ring
    simp only [Nat.zero_add, this]
  · intro a
    unfold dropoutExpect dropoutP
    norm_num
    field_simp
    ring

/-- A concretely shaped model (all parameters zero) for the encoder
witnesses: conv1 is 3 → 32, conv2 is 32 → 16, as in the script. -/
def modelZero : GraphSAGE :=
  { conv1 :=
      { wNbr := List.replicate 32 (List.replicate 3 0)
        wRoot := List.replicate 32 (List.replicate 3 0)
        bias := List.replicate 32 0 }
    conv2 :=
      { wNbr := List.replicate 16 (List.replicate 32 0)
        wRoot := List.replicate 16 (List.replicate 32 0)
        bias := List.replicate 16 0 } }

theorem forward_pipeline_witness :
    (modelZero.conv1.wNbr.length = 32 ∧ modelZero.conv2.wNbr.length = 16)
      ∧ (GraphSAGE.forward modelZero false (fun _ _ => false) adjPath [[1, 0, 0], [0, 1, 0], [0, 0, 1]]
            = sageConv modelZero.conv2 adjPath
                ((sageConv modelZero.conv1 adjPath [[1, 0, 0], [0, 1, 0], [0, 0, 1]] 3).map
                  (fun row => row.map relu)) 32
          ∧ GraphSAGE.forward modelZero true (fun _ _ => false) adjPath [[1, 0, 0], [0, 1, 0], [0, 0, 1]]
              = sageConv modelZero.conv2 adjPath
                  (dropoutStage dropoutP true (fun _ _ => false) 0
                    ((sageConv modelZero.conv1 adjPath [[1, 0, 0], [0, 1, 0], [0, 0, 1]] 3).map
                      (fun row => row.map relu))) 32
          ∧ (∀ row ∈ sageConv modelZero.conv1 adjPath [[1, 0, 0], [0, 1, 0], [0, 0, 1]] 3,
              row.length = 32)
          ∧ (∀ row ∈ GraphSAGE.forward modelZero true (fun _ _ => false) adjPath [[1, 0, 0], [0, 1, 0], [0, 0, 1]],
              row.length = 16)
          ∧ (∀ (msk : ℕ → Bool) (v : List ℚ), dropoutRow dropoutP false msk v = v)
          ∧ (∀ (msk : ℕ → Bool) (v : List ℚ) (k : ℕ), k < v.length →
              (dropoutRow dropoutP true msk v).getD k 0
                = if msk k then 0 else v.getD k 0 * (5 / 4))
          ∧ (∀ a : ℚ, dropoutExpect dropoutP a = a)) :=
  ⟨⟨by decide, by decide⟩,
    forward_pipeline modelZero adjPath (fun _ _ => false) [[1, 0, 0], [0, 1, 0], [0, 0, 1]]
      (by decide) (by decide)⟩

/-- Claim C7: the forward output always has one 16-dimensional row per
input node (shape N × 16), and in evaluation mode the output does not
depend on the dropout coin flips: two calls with the same parameters,
features and adjacency — but arbitrarily different random masks — return
identical outputs. -/
theorem forward_shape_and_eval_determinism (m : GraphSAGE) (adj : ℕ → ℕ → Bool)
    (mask mask2 : ℕ → ℕ → Bool) (x : List (List ℚ)) (training : Bool)
    (h2 : m.conv2.wNbr.length = 16) :
    ((GraphSAGE.forward m training mask adj x).length = x.length
        ∧ ∀ row ∈ GraphSAGE.forward m training mask adj x, row.length = 16)
      ∧ GraphSAGE.forward m false mask adj x = GraphSAGE.forward m false mask2 adj x := by
  refine ⟨⟨forward_length m training mask adj x, ?_⟩, ?_⟩
  · intro row hrow
    rw [forward_row_length m training mask adj x row hrow, h2]
  · unfold GraphSAGE.forward
    rw [dropoutStage_eval, dropoutStage_eval]

theorem forward_shape_and_eval_determinism_witness :
    modelZero.conv2.wNbr.length = 16
      ∧ (((GraphSAGE.forward modelZero true (fun i k => (i + k) % 2 = 0) adjPath
              [[1, 0, 0], [0, 1, 0], [0, 0, 1]]).length = 3
            ∧ ∀ row ∈ GraphSAGE.forward modelZero true (fun i k => (i + k) % 2 = 0) adjPath
                [[1, 0, 0], [0, 1, 0], [0, 0, 1]], row.length = 16)
          ∧ GraphSAGE.forward modelZero false (fun i k => (i + k) % 2 = 0) adjPath
                [[1, 0, 0], [0, 1, 0], [0, 0, 1]]
              = GraphSAGE.forward modelZero false (fun _ _ => true) adjPath
                  [[1, 0, 0], [0, 1, 0], [0, 0, 1]]) :=
  ⟨by decide,
    forward_shape_and_eval_determinism modelZero adjPath (fun i k => (i + k) % 2 = 0)
      (fun _ _ => true) [[1, 0, 0], [0, 1, 0], [0, 0, 1]] true (by decide)⟩

/-! ## The training loop (`train_embeddings`, lines 72-189) and the
top-level caller (lines 251-283)

The epoch body computes a loss and appends `loss.item()` to `losses`
unconditionally — there is no finiteness check and no error path of any
kind inside the loop.  The loss value itself is a transcendental function
of the parameters (log, sigmoid, gradients); it is embedded as `FloatVal`
(a finite float, or the non-finite NaN/inf result of overflow) supplied by
a per-epoch oracle `lossOf`, and the post-training parameters are supplied
as an oracle model `mFinal`.  The observable outcomes of
`train_embeddings` are: returning the Python value `None` (empty edge
list, line 94), never returning because the negative-sampling `while` loop
never exits, or returning the 3-tuple
`(final_embeddings, biases, G)` (line 189). -/

/-- A floating-point scalar as observed by `loss.item()`: either a finite
value or a non-finite one (NaN or ±inf). -/
inductive FloatVal where
  | finite : ℚ → FloatVal
  | nonfinite : FloatVal
deriving DecidableEq

/-- The 3-tuple returned by a successful `train_embeddings` run, plus the
recorded per-epoch loss sequence. -/
structure TrainResult where
  embeddings : List (List ℚ)
  biases : List ℚ
  losses : List FloatVal
deriving DecidableEq

/-- The observable behaviors of `train_embeddings`: the early `return None`
of line 94, non-termination inside the negative-sampling `while` loop, or
normal return of the result tuple. -/
inductive TrainOutcome where
  | noneReturn : TrainOutcome
  | hang : TrainOutcome
  | ok : TrainResult → TrainOutcome
deriving DecidableEq

/-- The recorded loss sequence of an outcome, when one exists. -/
def TrainOutcome.lossesOf : TrainOutcome → Option (List FloatVal)
  | TrainOutcome.ok r => some r.losses
  | _ => none

/-- The epoch loop of lines 120-167, keeping only its observable record:
epoch `k` first runs negative sampling on its draw stream (`none` from
`negSample` means the `while` loop is still running — the whole training
run hangs), then computes and appends the epoch's loss; nothing inspects
the loss value.  Gradient and optimizer state changes touch nothing the
loop observes, so they are not carried. -/
def runEpochs (adj : ℕ → ℕ → Bool) (numPos : ℕ) (negDraws : ℕ → List (ℕ × ℕ))
    (lossOf : ℕ → FloatVal) : ℕ → ℕ → Option (List FloatVal)
  | _, 0 => some []
  | k, e + 1 =>
    match negSample adj numPos (negDraws k) with
    | none => none
    | some _ => (runEpochs adj numPos negDraws lossOf (k + 1) e).map
        (fun ls => lossOf k :: ls)

/-- `train_embeddings` (lines 72-189): build the directed edge list from
the adjacency matrix; if it is empty, print an error and return `None`
(line 94); otherwise standardize the features, run `num_epochs` epochs,
and return `(final_embeddings, biases, G)` where the final embeddings are
one evaluation-mode forward pass of the trained model.  `sigmas` are the
per-column standard deviations used by the scaler, `mFinal` the
post-training parameters, `biases` the `np.random.randn` output — all
oracles for quantities the claims do not constrain. -/
def trainEmbeddings (adj : ℕ → ℕ → Bool) (numNodes numEpochs : ℕ)
    (feats : List (List ℚ)) (sigmas : List ℚ) (mFinal : GraphSAGE)
    (negDraws : ℕ → List (ℕ × ℕ)) (lossOf : ℕ → FloatVal)
    (biases : List ℚ) : TrainOutcome :=
  if (directedEdges adj numNodes).length = 0 then TrainOutcome.noneReturn
  else
    match runEpochs adj (directedEdges adj numNodes).length negDraws lossOf 0 numEpochs with
    | none => TrainOutcome.hang
    | some losses =>
      TrainOutcome.ok
        { embeddings :=
            GraphSAGE.forward mFinal false (fun _ _ => false) adj
              (List.transpose
                (List.zipWith standardizeCol (List.transpose feats) sigmas))
          biases := biases
          losses := losses }

/-- The complete graph on the 2 nodes {0, 1}: both nodes inside
communication range, so `adjacency[i][j] = 1` for every pair of distinct
nodes — the densest graph the generator can produce. -/
def adjComplete2 (i j : ℕ) : Bool :=
  decide (i ≠ j) && decide (i < 2) && decide (j < 2)

lemma negSampleAux_complete2_none (draws : List (ℕ × ℕ))
    (hb : ∀ p ∈ draws, p.1 < 2 ∧ p.2 < 2) :
    ∀ acc : List (ℕ × ℕ), acc.length < 2 →
      negSampleAux adjComplete2 2 acc draws = none := by
  induction draws with
  | nil =>
    intro acc hacc
    unfold negSampleAux
    rw [if_neg (by omega)]
  | cons d rest ih =>
    intro acc hacc
    obtain ⟨i, j⟩ := d
    have hbd := hb (i, j) (List.mem_cons_self _ _)
    unfold negSampleAux
    rw [if_neg (by omega)]
    rw [if_neg ?_]
    · exact ih (fun p hp => hb p (List.mem_cons_of_mem _ hp)) acc hacc
    · rintro ⟨hne, hadj⟩
      have : adjComplete2 i j = true := by
        simp [adjComplete2, hne, hbd.1, hbd.2]
      rw [this] at hadj
      cases hadj

/-- Claim C1 (refuting evidence): on a graph where every pair of distinct
nodes is adjacent, the negative-sampling loop makes no progress on any
finite stream of random draws — after every epoch's entire draw stream the
run is still inside the `while` loop.  The loop has no retry cap, and
`TrainOutcome` has no "graph too dense" alternative because the code has no
such failure path: the run hangs instead of failing fast. -/
theorem trainEmbeddings_dense_graph_hangs (numEpochs : ℕ) (h : 0 < numEpochs)
    (negDraws : ℕ → List (ℕ × ℕ))
    (hdraws : ∀ k, ∀ p ∈ negDraws k, p.1 < 2 ∧ p.2 < 2)
    (feats : List (List ℚ)) (sigmas : List ℚ) (mFinal : GraphSAGE)
    (lossOf : ℕ → FloatVal) (biases : List ℚ) :
    trainEmbeddings adjComplete2 2 numEpochs feats sigmas mFinal negDraws lossOf biases
      = TrainOutcome.hang := by
  have hedges : (directedEdges adjComplete2 2).length = 2 := by decide
  obtain ⟨e, rfl⟩ : ∃ e, numEpochs = e + 1 :=
    ⟨numEpochs - 1, (Nat.succ_pred_eq_of_pos h).symm⟩
  unfold trainEmbeddings
  rw [if_neg (by omega), hedges]
  have hsamp : negSample adjComplete2 2 (negDraws 0) = none :=
    negSampleAux_complete2_none (negDraws 0) (hdraws 0) [] (by simp)
  unfold runEpochs
  rw [hsamp]

theorem trainEmbeddings_dense_graph_hangs_witness :
    (0 < 50 ∧ ∀ k : ℕ, ∀ p ∈ ([(0, 1), (1, 0), (0, 0)] : List (ℕ × ℕ)),
        p.1 < 2 ∧ p.2 < 2)
      ∧ trainEmbeddings adjComplete2 2 50 [[1, 1, 1], [2, 2, 2]] [1, 1, 1] modelZero
          (fun _ => [(0, 1), (1, 0), (0, 0)]) (fun _ => FloatVal.finite 0) [0, 0]
          = TrainOutcome.hang :=
  ⟨⟨by decide, by intro k; decide⟩,
    trainEmbeddings_dense_graph_hangs 50 (by decide)
      (fun _ => [(0, 1), (1, 0), (0, 0)]) (by intro k; show ∀ p ∈ ([(0, 1), (1, 0), (0, 0)] : List (ℕ × ℕ)), p.1 < 2 ∧ p.2 < 2; decide)
      [[1, 1, 1], [2, 2, 2]] [1, 1, 1] modelZero (fun _ => FloatVal.finite 0) [0, 0]⟩

lemma runEpochs_complete (adj : ℕ → ℕ → Bool) (numPos : ℕ)
    (negDraws : ℕ → List (ℕ × ℕ)) (lossOf : ℕ → FloatVal) :
    ∀ (e k : ℕ), (∀ m, m < e → negSample adj numPos (negDraws (k + m)) ≠ none) →
      runEpochs adj numPos negDraws lossOf k e
        = some ((List.range e).map (fun i => lossOf (k + i))) := by
  intro e
  induction e with
  | zero => intro k _; rfl
  | succ e ih =>
    intro k hs
    have h0 : negSample adj numPos (negDraws k) ≠ none := by
      have := hs 0 (Nat.succ_pos e)
      simpa using this
    obtain ⟨l, hl⟩ : ∃ l, negSample adj numPos (negDraws k) = some l := by
      cases hcase : negSample adj numPos (negDraws k) with
      | none => exact absurd hcase h0
      | some l => exact ⟨l, rfl⟩
    unfold runEpochs
    rw [hl]
    have hrec := ih (k + 1) (fun m hm => by
      have := hs (m + 1) (by omega)
      have harg : k + (m + 1) = k + 1 + m := by omega
      rwa [harg] at this)
    rw [hrec]
    simp only [Option.map_some]
    rw [List.range_succ_eq_map]
    simp only [List.map_cons, List.map_map, Nat.add_zero]
    have hfun : ((fun i => lossOf (k + i)) ∘ Nat.succ) = (fun i => lossOf (k + 1 + i)) := by
      funext i
      simp only [Function.comp_apply]
      have : k + Nat.succ i = k + 1 + i := by omega
      rw [this]
    rw [hfun]
    rfl

/-- Claim C8 (refuting evidence): whatever value — finite or not — the loss
takes at each epoch, the training loop runs all `num_epochs` epochs and
records every value: the recorded sequence is exactly `lossOf` over the
epoch range, with no inspection, no detection, and no failure path (the
loop's only non-normal outcome is the sampling hang; `TrainOutcome` has no
NumericInstability alternative because lines 158-164 contain none).  In
particular a run whose loss is NaN/inf from epoch 0 on still completes and
returns a result tuple. -/
theorem trainEmbeddings_records_nonfinite_losses (adj : ℕ → ℕ → Bool)
    (numNodes numEpochs : ℕ) (feats : List (List ℚ)) (sigmas : List ℚ)
    (mFinal : GraphSAGE) (negDraws : ℕ → List (ℕ × ℕ)) (lossOf : ℕ → FloatVal)
    (biases : List ℚ)
    (hne : (directedEdges adj numNodes).length ≠ 0)
    (hs : ∀ k, k < numEpochs →
      negSample adj (directedEdges adj numNodes).length (negDraws k) ≠ none) :
    TrainOutcome.lossesOf
        (trainEmbeddings adj numNodes numEpochs feats sigmas mFinal negDraws lossOf biases)
      = some ((List.range numEpochs).map lossOf) := by
  unfold trainEmbeddings
  rw [if_neg hne]
  have hrun := runEpochs_complete adj (directedEdges adj numNodes).length negDraws lossOf
    numEpochs 0 (fun m hm => by simpa using hs m hm)
  rw [hrun]
  have hfun : ((fun i => lossOf (0 + i)) : ℕ → FloatVal) = lossOf := by
    funext i
    rw [Nat.zero_add]
  rw [hfun]
  rfl

theorem trainEmbeddings_records_nonfinite_losses_witness :
    ((directedEdges adjPath 3).length ≠ 0
        ∧ ∀ k, k < 50 →
            negSample adjPath (directedEdges adjPath 3).length
              ((fun _ => [(0, 2), (2, 0), (0, 2), (2, 0)]) k) ≠ none)
      ∧ TrainOutcome.lossesOf
            (trainEmbeddings adjPath 3 50 [[0, 0, 0], [0, 0, 0], [0, 0, 0]] [0, 0, 0]
              modelZero (fun _ => [(0, 2), (2, 0), (0, 2), (2, 0)])
              (fun _ => FloatVal.nonfinite) [0, 0, 0])
          = some ((List.range 50).map (fun _ => FloatVal.nonfinite)) :=
  ⟨⟨by decide,
      by
        intro k hk
        show negSample adjPath (directedEdges adjPath 3).length
          [(0, 2), (2, 0), (0, 2), (2, 0)] ≠ none
        decide⟩,
    trainEmbeddings_records_nonfinite_losses adjPath 3 50
      [[0, 0, 0], [0, 0, 0], [0, 0, 0]] [0, 0, 0] modelZero
      (fun _ => [(0, 2), (2, 0), (0, 2), (2, 0)]) (fun _ => FloatVal.nonfinite)
      [0, 0, 0] (by decide)
      (by
        intro k hk
        show negSample adjPath (directedEdges adjPath 3).length
          [(0, 2), (2, 0), (0, 2), (2, 0)] ≠ none
        decide)⟩

/-- Claim C9: if the directed edge list is empty, `train_embeddings`
returns `None` at line 94, before the model, the optimizer or the training
loop exist: no epoch runs, no loss is recorded, and no embedding table is
produced. -/
theorem trainEmbeddings_empty_graph_no_training (adj : ℕ → ℕ → Bool)
    (numNodes numEpochs : ℕ) (feats : List (List ℚ)) (sigmas : List ℚ)
    (mFinal : GraphSAGE) (negDraws : ℕ → List (ℕ × ℕ)) (lossOf : ℕ → FloatVal)
    (biases : List ℚ)
    (h : directedEdges adj numNodes = []) :
    trainEmbeddings adj numNodes numEpochs feats sigmas mFinal negDraws lossOf biases
        = TrainOutcome.noneReturn
      ∧ TrainOutcome.lossesOf
          (trainEmbeddings adj numNodes numEpochs feats sigmas mFinal negDraws lossOf biases)
        = none := by
  have hlen : (directedEdges adj numNodes).length = 0 := by
    rw [h]
    rfl
  unfold trainEmbeddings
  rw [if_pos hlen]
  exact ⟨rfl, rfl⟩

theorem trainEmbeddings_empty_graph_no_training_witness :
    directedEdges (fun _ _ => false) 2 = []
      ∧ (trainEmbeddings (fun _ _ => false) 2 50 [[1, 1, 1], [2, 2, 2]] [1, 1, 1]
            modelZero (fun _ => []) (fun _ => FloatVal.finite 0) [0, 0]
          = TrainOutcome.noneReturn
        ∧ TrainOutcome.lossesOf
            (trainEmbeddings (fun _ _ => false) 2 50 [[1, 1, 1], [2, 2, 2]] [1, 1, 1]
              modelZero (fun _ => []) (fun _ => FloatVal.finite 0) [0, 0])
          = none) :=
  ⟨by decide,
    trainEmbeddings_empty_graph_no_training (fun _ _ => false) 2 50
      [[1, 1, 1], [2, 2, 2]] [1, 1, 1] modelZero (fun _ => [])
      (fun _ => FloatVal.finite 0) [0, 0] (by decide)⟩

/-! ## The top-level caller (`__main__`, lines 251-283)

Line 265 tuple-unpacks the return value:

    embeddings, biases, G = train_embeddings(num_nodes, num_epochs)

When `train_embeddings` returns `None` (edgeless graph), this raises
`TypeError: cannot unpack non-iterable NoneType`, which the surrounding
`try`/`except Exception` absorbs at line 280.  The graceful
`if embeddings is not None: ... else: print("Training failed")` branch at
lines 267-278 tests the *first tuple component* — an ndarray whenever the
unpacking succeeded — so its `else` arm can never run. -/

/-- A Python exception relevant here: the `TypeError` raised by unpacking
`None` into three names. -/
inductive PyExc where
  | typeError : PyExc
deriving DecidableEq

/-- The observable outcomes of the `__main__` block: the success path
(save + visualize), the `else: print("Training failed")` branch, the
`except Exception` handler, or never returning at all. -/
inductive MainOutcome where
  | success : MainOutcome
  | trainingFailedBranch : MainOutcome
  | errorCaught : MainOutcome
  | hang : MainOutcome
deriving DecidableEq

/-- `embeddings, biases, G = r` for `r` either `None` or a 3-tuple:
unpacking `None` raises `TypeError`. -/
def unpackTrain : Option TrainResult → Except PyExc TrainResult
  | none => Except.error PyExc.typeError
  | some r => Except.ok r

/-- Python's `embeddings is None` test at line 267, applied to the first
unpacked component: after a successful unpack that component is the
ndarray `final_embeddings`, which is never the `None` object. -/
def ndarrayIsNone (_ : List (List ℚ)) : Bool := false

/-- The body of the `try:` block at lines 263-278, given the value
returned by `train_embeddings`: unpack (raising on `None`), then branch on
`embeddings is not None`.  An exception propagates to the `except` handler. -/
def mainBody (v : Option TrainResult) : MainOutcome :=
  match unpackTrain v with
  | Except.error _ => MainOutcome.errorCaught
  | Except.ok r =>
    if ndarrayIsNone r.embeddings then MainOutcome.trainingFailedBranch
    else MainOutcome.success

/-- The whole `__main__` block as a function of the `train_embeddings`
outcome. -/
def pyMain : TrainOutcome → MainOutcome
  | TrainOutcome.hang => MainOutcome.hang
  | TrainOutcome.noneReturn => mainBody none
  | TrainOutcome.ok r => mainBody (some r)

/-- Claim C10: on an edgeless graph `train_embeddings` returns the single
value `None` rather than a 3-tuple, so the caller's tuple unpacking raises
`TypeError`, which the catch-all `except` absorbs — and for every possible
outcome of `train_embeddings` the graceful `embeddings is None` failure
branch is unreachable. -/
theorem main_none_unpack_caught_and_branch_unreachable :
    pyMain (trainEmbeddings (fun _ _ => false) 2 50 [[5, 5, 5], [6, 6, 6]] [1, 1, 1]
        modelZero (fun _ => []) (fun _ => FloatVal.finite 0) [0, 0])
      = MainOutcome.errorCaught
      ∧ ∀ t : TrainOutcome, pyMain t ≠ MainOutcome.trainingFailedBranch := by
  constructor
  · rfl
  · intro t
    cases t with
    | noneReturn => simp [pyMain, mainBody, unpackTrain]
    | hang => simp [pyMain]
    | ok r => simp [pyMain, mainBody, unpackTrain, ndarrayIsNone]
